import Mathlib

/-!
Shallow embedding of the redox-os/netutils packet codec library
(`src/lib/lib.rs`, `src/lib/udp.rs`, `src/lib/tcp.rs`,
`src/lib/mac/addr.rs`, `src/lib/ip/addr.rs`).

Byte buffers are `List Nat` whose entries are meant to be `< 256`.
The Rust code reinterprets packed structs as raw memory on a
little-endian host: a `u16` field occupies two bytes `[v % 256, v / 256]`,
an `n16`/`n32` wrapper stores the big-endian byte pattern as its native
value (`to_be`/`from_be` byte-swaps on a little-endian host), and
`Checksum::sum` accumulates native little-endian 16-bit loads.
The embedding models that memory behaviour explicitly.
-/

namespace Netutils

/-- Little-endian 16-bit load of two bytes, as the host `u16` value. -/
def le16 (lo hi : Nat) : Nat := lo + 256 * hi

/-- Byte swap of a `u16` value: `u16::to_be` / `u16::from_be` on a
little-endian host. -/
def swap16 (x : Nat) : Nat := (x % 256) * 256 + (x / 256 % 256)

/-- Byte swap of a `u32` value: `u32::to_be` / `u32::from_be` on a
little-endian host. -/
def swap32 (x : Nat) : Nat :=
  (x % 256) * 16777216 + (x / 256 % 256) * 65536 + (x / 65536 % 256) * 256 +
    (x / 16777216 % 256)

/-- The two memory bytes of a host `u16` value on a little-endian host. -/
def bytes16 (v : Nat) : List Nat := [v % 256, v / 256 % 256]

/-- The four memory bytes of a host `u32` value on a little-endian host. -/
def bytes32 (v : Nat) : List Nat :=
  [v % 256, v / 256 % 256, v / 65536 % 256, v / 16777216 % 256]

/-- `struct n16(u16)`: a 16-bit integer stored in network byte order.
`val` is the stored (native, already byte-swapped) `u16` value. -/
structure n16 where
  val : Nat
  deriving DecidableEq, Repr

/-- `n16::new(value)`: stores `value.to_be()`. -/
def n16.new (value : Nat) : n16 := ⟨swap16 (value % 65536)⟩

/-- `n16::get()`: reads back `u16::from_be(stored)`. -/
def n16.get (v : n16) : Nat := swap16 (v.val % 65536)

/-- Memory bytes of an `n16` field inside a packed struct. -/
def n16.bytes (v : n16) : List Nat := bytes16 v.val

/-- `struct n32(u32)`: a 32-bit integer stored in network byte order. -/
structure n32 where
  val : Nat
  deriving DecidableEq, Repr

/-- `n32::new(value)`: stores `value.to_be()`. -/
def n32.new (value : Nat) : n32 := ⟨swap32 (value % 4294967296)⟩

/-- `n32::get()`: reads back `u32::from_be(stored)`. -/
def n32.get (v : n32) : Nat := swap32 (v.val % 4294967296)

/-- Memory bytes of an `n32` field inside a packed struct. -/
def n32.bytes (v : n32) : List Nat := bytes32 v.val

/-- `struct Checksum { data: u16 }`: the checksum field, stored as a
plain host-order `u16` (the Rust field is not an `n16`). -/
structure Checksum where
  data : Nat
  deriving DecidableEq, Repr

/-- Memory bytes of a `Checksum` field inside a packed struct. -/
def Checksum.bytes (c : Checksum) : List Nat := bytes16 c.data

/-- `Checksum::sum(ptr, len)`: accumulate native 16-bit loads two bytes at
a time; a trailing odd byte is added zero-extended. -/
def Checksum.sum : List Nat → Nat
  | lo :: hi :: rest => le16 lo hi + Checksum.sum rest
  | [b] => b
  | [] => 0

/-- `Checksum::compile(sum)`: fold carries above bit 16 into the low 16
bits until none remain (`while (sum >> 16) > 0`), then return
`0xFFFF - (sum as u16)`. -/
def Checksum.compile (sum : Nat) : Nat :=
  if 0 < sum / 65536 then Checksum.compile (sum % 65536 + sum / 65536)
  else 65535 - sum % 65536
termination_by sum
decreasing_by
  rename_i h
  omega

/-- `MacAddr { bytes: [u8; 6] }`. -/
structure MacAddr where
  bytes : List Nat
  deriving DecidableEq, Repr

/-- `Ipv4Addr { bytes: [u8; 4] }`. -/
structure Ipv4Addr where
  bytes : List Nat
  deriving DecidableEq, Repr

/-- `Ipv4Addr::LOOPBACK`. -/
def Ipv4Addr.LOOPBACK : Ipv4Addr := ⟨[127, 0, 0, 1]⟩

/-- Rust slicing `l[a..b]` (defined when `a ≤ b ≤ l.len()`). -/
def listSlice (l : List Nat) (a b : Nat) : List Nat := (l.drop a).take (b - a)

/-- Byte `i` of a buffer (`bytes[i]`; the default is never reached under
the length checks the callers perform first). -/
def byteAt (l : List Nat) (i : Nat) : Nat := l.getD i 0

/-- `MacAddr::default()`: the all-zero address. -/
def MacAddr.default : MacAddr := ⟨[0, 0, 0, 0, 0, 0]⟩

/-- `char::to_digit(16)`: value of one hexadecimal digit. -/
def hexDigitVal (c : Char) : Option Nat :=
  if '0' ≤ c ∧ c ≤ '9' then some (c.toNat - 48)
  else if 'a' ≤ c ∧ c ≤ 'f' then some (c.toNat - 87)
  else if 'A' ≤ c ∧ c ≤ 'F' then some (c.toNat - 55)
  else none

/-- Digit-accumulation loop of `u8::from_str_radix(_, 16)`: checked
`u8` arithmetic fails on any intermediate value above `255`. -/
def parseHexDigits : List Char → Nat → Option Nat
  | [], acc => some acc
  | c :: rest, acc =>
    match hexDigitVal c with
    | some d => if acc * 16 + d ≤ 255 then parseHexDigits rest (acc * 16 + d)
                else none
    | none => none

/-- `u8::from_str_radix(s, 16)`: an optional leading `+` followed by one
or more hex digits whose value fits in a `u8`. -/
def fromStrRadix16 : List Char → Option Nat
  | [] => none
  | c :: rest =>
    if c = '+' then
      if rest = [] then none else parseHexDigits rest 0
    else parseHexDigits (c :: rest) 0

/-- `str::split(delimeter)`: the empty string yields one empty part. -/
def splitChar (d : Char) : List Char → List (List Char)
  | [] => [[]]
  | c :: rest =>
    if c = d then [] :: splitChar d rest
    else
      match splitChar d rest with
      | [] => [[c]]
      | r :: rs => (c :: r) :: rs

/-- The `for part in string.split(delimeter)` loop of
`MacAddr::try_parse_with_delimeter`: reject a seventh segment, reject an
unparseable segment, and finally require exactly six segments. -/
def macParseLoop : List (List Char) → List Nat → Option (List Nat)
  | [], acc => if acc.length = 6 then some acc else none
  | p :: rest, acc =>
    if 6 ≤ acc.length then none
    else
      match fromStrRadix16 p with
      | some b => macParseLoop rest (acc ++ [b])
      | none => none

/-- `MacAddr::try_parse_with_delimeter`. -/
def MacAddr.try_parse_with_delimeter (s : List Char) (d : Char) :
    Option MacAddr :=
  (macParseLoop (splitChar d s) []).map MacAddr.mk

/-- `MacAddr::from_str`: try the colon parse, then the dash parse, then
fall back to the all-zero default. -/
def MacAddr.from_str (s : List Char) : MacAddr :=
  match MacAddr.try_parse_with_delimeter s ':' with
  | some m => m
  | none =>
    match MacAddr.try_parse_with_delimeter s '-' with
    | some m => m
    | none => MacAddr.default

/-- One uppercase hexadecimal digit (`{:X}` formatting). -/
def hexUpper (d : Nat) : Char :=
  if d < 10 then Char.ofNat (48 + d) else Char.ofNat (55 + d)

/-- `format!("{:>02X}", b)` for a byte: two uppercase hex digits. -/
def hex2 (b : Nat) : List Char := [hexUpper (b / 16), hexUpper (b % 16)]

/-- `MacAddr::to_string`: dash-separated uppercase hex pairs. -/
def MacAddr.to_string (m : MacAddr) : List Char :=
  hex2 (byteAt m.bytes 0) ++ '-' ::
    (hex2 (byteAt m.bytes 1) ++ '-' ::
      (hex2 (byteAt m.bytes 2) ++ '-' ::
        (hex2 (byteAt m.bytes 3) ++ '-' ::
          (hex2 (byteAt m.bytes 4) ++ '-' :: hex2 (byteAt m.bytes 5)))))

/-! ## ARP (`struct ArpHeader` / `struct Arp`, 28-byte fixed header) -/

structure ArpHeader where
  htype : n16
  ptype : n16
  hlen : Nat
  plen : Nat
  oper : n16
  src_mac : MacAddr
  src_ip : Ipv4Addr
  dst_mac : MacAddr
  dst_ip : Ipv4Addr
  deriving DecidableEq, Repr

/-- Memory bytes of a packed `ArpHeader`. -/
def ArpHeader.bytes (h : ArpHeader) : List Nat :=
  h.htype.bytes ++ h.ptype.bytes ++ [h.hlen] ++ [h.plen] ++ h.oper.bytes ++
    h.src_mac.bytes ++ h.src_ip.bytes ++ h.dst_mac.bytes ++ h.dst_ip.bytes

structure Arp where
  header : ArpHeader
  data : List Nat
  deriving DecidableEq, Repr

/-- `Arp::from_bytes`: length check, then reinterpret the first 28 bytes
as the packed header and copy the remainder as data. -/
def Arp.from_bytes (bytes : List Nat) : Option Arp :=
  if 28 ≤ bytes.length then
    some { header :=
            { htype := ⟨le16 (byteAt bytes 0) (byteAt bytes 1)⟩
              ptype := ⟨le16 (byteAt bytes 2) (byteAt bytes 3)⟩
              hlen := byteAt bytes 4
              plen := byteAt bytes 5
              oper := ⟨le16 (byteAt bytes 6) (byteAt bytes 7)⟩
              src_mac := ⟨[byteAt bytes 8, byteAt bytes 9, byteAt bytes 10,
                           byteAt bytes 11, byteAt bytes 12, byteAt bytes 13]⟩
              src_ip := ⟨[byteAt bytes 14, byteAt bytes 15, byteAt bytes 16,
                          byteAt bytes 17]⟩
              dst_mac := ⟨[byteAt bytes 18, byteAt bytes 19, byteAt bytes 20,
                           byteAt bytes 21, byteAt bytes 22, byteAt bytes 23]⟩
              dst_ip := ⟨[byteAt bytes 24, byteAt bytes 25, byteAt bytes 26,
                          byteAt bytes 27]⟩ }
           data := bytes.drop 28 }
  else none

/-- `Arp::to_bytes`: header memory bytes followed by the data. -/
def Arp.to_bytes (a : Arp) : List Nat := a.header.bytes ++ a.data

/-! ## Ethernet II (`struct EthernetIIHeader` / `struct EthernetII`,
14-byte fixed header) -/

structure EthernetIIHeader where
  dst : MacAddr
  src : MacAddr
  ethertype : n16
  deriving DecidableEq, Repr

/-- Memory bytes of a packed `EthernetIIHeader`. -/
def EthernetIIHeader.bytes (h : EthernetIIHeader) : List Nat :=
  h.dst.bytes ++ h.src.bytes ++ h.ethertype.bytes

structure EthernetII where
  header : EthernetIIHeader
  data : List Nat
  deriving DecidableEq, Repr

/-- `EthernetII::from_bytes`. -/
def EthernetII.from_bytes (bytes : List Nat) : Option EthernetII :=
  if 14 ≤ bytes.length then
    some { header :=
            { dst := ⟨[byteAt bytes 0, byteAt bytes 1, byteAt bytes 2,
                       byteAt bytes 3, byteAt bytes 4, byteAt bytes 5]⟩
              src := ⟨[byteAt bytes 6, byteAt bytes 7, byteAt bytes 8,
                       byteAt bytes 9, byteAt bytes 10, byteAt bytes 11]⟩
              ethertype := ⟨le16 (byteAt bytes 12) (byteAt bytes 13)⟩ }
           data := bytes.drop 14 }
  else none

/-- `EthernetII::to_bytes`. -/
def EthernetII.to_bytes (e : EthernetII) : List Nat := e.header.bytes ++ e.data

/-! ## IPv4 (`struct Ipv4Header` / `struct Ipv4`, 20-byte fixed header) -/

structure Ipv4Header where
  ver_hlen : Nat
  services : Nat
  len : n16
  id : n16
  flags_fragment : n16
  ttl : Nat
  proto : Nat
  checksum : Checksum
  src : Ipv4Addr
  dst : Ipv4Addr
  deriving DecidableEq, Repr

/-- Memory bytes of a packed `Ipv4Header`. -/
def Ipv4Header.bytes (h : Ipv4Header) : List Nat :=
  [h.ver_hlen] ++ [h.services] ++ h.len.bytes ++ h.id.bytes ++
    h.flags_fragment.bytes ++ [h.ttl] ++ [h.proto] ++ h.checksum.bytes ++
    h.src.bytes ++ h.dst.bytes

structure Ipv4 where
  header : Ipv4Header
  options : List Nat
  data : List Nat
  deriving DecidableEq, Repr

/-- `Ipv4::checksum(&mut self)`: zero the checksum field, then store
`compile(sum(header bytes))` over the fixed header (with the checksum
field zeroed); options and data are not summed. -/
def Ipv4.checksum (f : Ipv4) : Ipv4 :=
  let zeroed : Ipv4Header := { f.header with checksum := ⟨0⟩ }
  { f with header :=
      { zeroed with checksum := ⟨Checksum.compile (Checksum.sum zeroed.bytes)⟩ } }

/-- `Ipv4::from_bytes`: length check, reinterpret the first 20 bytes as
the header, derive `header_len = (ver_hlen & 0xF) << 2`, check
`20 ≤ header_len ≤ bytes.len()`, `total_len ≤ bytes.len()` and
`header_len ≤ total_len`, then slice options and data. -/
def Ipv4.from_bytes (bytes : List Nat) : Option Ipv4 :=
  if 20 ≤ bytes.length then
    let header : Ipv4Header :=
      { ver_hlen := byteAt bytes 0
        services := byteAt bytes 1
        len := ⟨le16 (byteAt bytes 2) (byteAt bytes 3)⟩
        id := ⟨le16 (byteAt bytes 4) (byteAt bytes 5)⟩
        flags_fragment := ⟨le16 (byteAt bytes 6) (byteAt bytes 7)⟩
        ttl := byteAt bytes 8
        proto := byteAt bytes 9
        checksum := ⟨le16 (byteAt bytes 10) (byteAt bytes 11)⟩
        src := ⟨[byteAt bytes 12, byteAt bytes 13, byteAt bytes 14,
                 byteAt bytes 15]⟩
        dst := ⟨[byteAt bytes 16, byteAt bytes 17, byteAt bytes 18,
                 byteAt bytes 19]⟩ }
    let header_len := (header.ver_hlen &&& 0xF) <<< 2
    if 20 ≤ header_len ∧ header_len ≤ bytes.length ∧
        header.len.get ≤ bytes.length ∧ header_len ≤ header.len.get then
      some { header := header
             options := listSlice bytes 20 header_len
             data := listSlice bytes header_len header.len.get }
    else none
  else none

/-- `Ipv4::to_bytes`: header memory bytes, then options, then data. -/
def Ipv4.to_bytes (f : Ipv4) : List Nat := f.header.bytes ++ f.options ++ f.data

/-! ## TCP (`struct TcpHeader` / `struct Tcp`, 20-byte fixed header) -/

structure TcpHeader where
  src : n16
  dst : n16
  sequence : n32
  ack_num : n32
  flags : n16
  window_size : n16
  checksum : Checksum
  urgent_pointer : n16
  deriving DecidableEq, Repr

/-- Memory bytes of a packed `TcpHeader`. -/
def TcpHeader.bytes (h : TcpHeader) : List Nat :=
  h.src.bytes ++ h.dst.bytes ++ h.sequence.bytes ++ h.ack_num.bytes ++
    h.flags.bytes ++ h.window_size.bytes ++ h.checksum.bytes ++
    h.urgent_pointer.bytes

structure Tcp where
  header : TcpHeader
  options : List Nat
  data : List Nat
  deriving DecidableEq, Repr

/-- `Tcp::from_bytes`: length check, reinterpret the first 20 bytes as the
header, derive `header_len = (flags.get() & 0xF000) >> 10`, check
`20 ≤ header_len ≤ bytes.len()`, then slice options and data (data runs
to the end of the buffer). -/
def Tcp.from_bytes (bytes : List Nat) : Option Tcp :=
  if 20 ≤ bytes.length then
    let header : TcpHeader :=
      { src := ⟨le16 (byteAt bytes 0) (byteAt bytes 1)⟩
        dst := ⟨le16 (byteAt bytes 2) (byteAt bytes 3)⟩
        sequence := ⟨le16 (byteAt bytes 4) (byteAt bytes 5) +
                     65536 * le16 (byteAt bytes 6) (byteAt bytes 7)⟩
        ack_num := ⟨le16 (byteAt bytes 8) (byteAt bytes 9) +
                    65536 * le16 (byteAt bytes 10) (byteAt bytes 11)⟩
        flags := ⟨le16 (byteAt bytes 12) (byteAt bytes 13)⟩
        window_size := ⟨le16 (byteAt bytes 14) (byteAt bytes 15)⟩
        checksum := ⟨le16 (byteAt bytes 16) (byteAt bytes 17)⟩
        urgent_pointer := ⟨le16 (byteAt bytes 18) (byteAt bytes 19)⟩ }
    let header_len := (header.flags.get &&& 0xF000) >>> 10
    if 20 ≤ header_len ∧ header_len ≤ bytes.length then
      some { header := header
             options := listSlice bytes 20 header_len
             data := listSlice bytes header_len bytes.length }
    else none
  else none

/-- `Tcp::to_bytes`: header memory bytes, then options, then data. -/
def Tcp.to_bytes (t : Tcp) : List Nat := t.header.bytes ++ t.options ++ t.data

/-! ## UDP (`struct UdpHeader` / `struct Udp`, 8-byte fixed header) -/

structure UdpHeader where
  src : n16
  dst : n16
  len : n16
  checksum : Checksum
  deriving DecidableEq, Repr

/-- Memory bytes of a packed `UdpHeader`. -/
def UdpHeader.bytes (h : UdpHeader) : List Nat :=
  h.src.bytes ++ h.dst.bytes ++ h.len.bytes ++ h.checksum.bytes

structure Udp where
  header : UdpHeader
  data : List Nat
  deriving DecidableEq, Repr

/-- `Udp::from_bytes`: length check, reinterpret the first 8 bytes as the
header, check `8 ≤ len ≤ bytes.len()`, then slice the data. -/
def Udp.from_bytes (bytes : List Nat) : Option Udp :=
  if 8 ≤ bytes.length then
    let header : UdpHeader :=
      { src := ⟨le16 (byteAt bytes 0) (byteAt bytes 1)⟩
        dst := ⟨le16 (byteAt bytes 2) (byteAt bytes 3)⟩
        len := ⟨le16 (byteAt bytes 4) (byteAt bytes 5)⟩
        checksum := ⟨le16 (byteAt bytes 6) (byteAt bytes 7)⟩ }
    if header.len.get ≤ bytes.length ∧ 8 ≤ header.len.get then
      some { header := header
             data := listSlice bytes 8 header.len.get }
    else none
  else none

/-- `Udp::to_bytes`: header memory bytes followed by the data. -/
def Udp.to_bytes (u : Udp) : List Nat := u.header.bytes ++ u.data

/-- `Udp::is_valid(src_addr, dst_addr)`: a zero stored checksum is
unconditionally valid; otherwise recompute over the pseudo-header
(addresses, the constant `0x1100u16` summed as a native two-byte region,
the length field again), the real header with the checksum field zeroed,
and the data; a folded result of `0` becomes `0xFFFF`; compare with the
stored field. -/
def Udp.is_valid (u : Udp) (src_addr dst_addr : Ipv4Addr) : Bool :=
  if u.header.checksum.data = 0 then true
  else
    let header : UdpHeader := { u.header with checksum := ⟨0⟩ }
    let computed_checksum : Nat := Checksum.compile
      (Checksum.sum src_addr.bytes +
       Checksum.sum dst_addr.bytes +
       Checksum.sum (bytes16 0x1100) +
       Checksum.sum header.len.bytes +
       Checksum.sum header.bytes +
       Checksum.sum u.data)
    let computed_checksum := if computed_checksum = 0 then 0xFFFF
                             else computed_checksum
    computed_checksum == u.header.checksum.data


/-- Validity computation as the specification words it (claim C2): the
ones-complement checksum of one concatenated region made of the
pseudo-header (source address bytes, destination address bytes, the
16-bit protocol field with big-endian wire value 0x0011, the length
field repeated from the real header), the real header with its checksum
field zeroed, and the data. -/
def Udp.is_valid_spec (u : Udp) (src_addr dst_addr : Ipv4Addr) : Bool :=
  if u.header.checksum.data = 0 then true
  else
    let header : UdpHeader := { u.header with checksum := ⟨0⟩ }
    let region := src_addr.bytes ++ dst_addr.bytes ++ [0x00, 0x11] ++
      header.len.bytes ++ header.bytes ++ u.data
    let computed := Checksum.compile (Checksum.sum region)
    let computed := if computed = 0 then 0xFFFF else computed
    computed == u.header.checksum.data

/-- A validly constructed `Arp` frame: field values fit the Rust field
types. -/
def ArpWF (a : Arp) : Prop :=
  a.header.htype.val < 65536 ∧ a.header.ptype.val < 65536 ∧
  a.header.oper.val < 65536 ∧
  a.header.src_mac.bytes.length = 6 ∧ a.header.src_ip.bytes.length = 4 ∧
  a.header.dst_mac.bytes.length = 6 ∧ a.header.dst_ip.bytes.length = 4

/-- A validly constructed `EthernetII` frame. -/
def EthernetIIWF (e : EthernetII) : Prop :=
  e.header.dst.bytes.length = 6 ∧ e.header.src.bytes.length = 6 ∧
  e.header.ethertype.val < 65536

/-- A validly constructed, self-consistent `Ipv4` frame: field values fit
the Rust field types, the header-length nibble matches the options and
the total-length field matches the whole frame. -/
def Ipv4WF (f : Ipv4) : Prop :=
  f.header.len.val < 65536 ∧ f.header.id.val < 65536 ∧
  f.header.flags_fragment.val < 65536 ∧ f.header.checksum.data < 65536 ∧
  f.header.src.bytes.length = 4 ∧ f.header.dst.bytes.length = 4 ∧
  (f.header.ver_hlen &&& 0xF) <<< 2 = 20 + f.options.length ∧
  f.header.len.get = 20 + f.options.length + f.data.length

/-- A validly constructed, self-consistent `Tcp` frame: field values fit
the Rust field types and the data-offset nibble matches the options. -/
def TcpWF (t : Tcp) : Prop :=
  t.header.src.val < 65536 ∧ t.header.dst.val < 65536 ∧
  t.header.sequence.val < 4294967296 ∧ t.header.ack_num.val < 4294967296 ∧
  t.header.flags.val < 65536 ∧ t.header.window_size.val < 65536 ∧
  t.header.checksum.data < 65536 ∧ t.header.urgent_pointer.val < 65536 ∧
  (t.header.flags.get &&& 0xF000) >>> 10 = 20 + t.options.length

/-- A validly constructed, self-consistent `Udp` frame: field values fit
the Rust field types and the length field matches the whole frame. -/
def UdpWF (u : Udp) : Prop :=
  u.header.src.val < 65536 ∧ u.header.dst.val < 65536 ∧
  u.header.len.val < 65536 ∧ u.header.checksum.data < 65536 ∧
  u.header.len.get = 8 + u.data.length

/-! ## Helper lemmas -/

theorem Checksum.sum_nil : Checksum.sum [] = 0 := rfl

theorem Checksum.sum_append_even : ∀ (a b : List Nat), a.length % 2 = 0 →
    Checksum.sum (a ++ b) = Checksum.sum a + Checksum.sum b
  | [], _, _ => by simp [Checksum.sum]
  | [_], _, h => by simp at h
  | x :: y :: t, b, h => by
    have ht : t.length % 2 = 0 := by
      simp only [List.length_cons] at h
      omega
    have ih := Checksum.sum_append_even t b ht
    simp only [List.cons_append, Checksum.sum, List.append_eq, ih]
    ring

theorem Checksum.compile_of_lt {s : Nat} (h : s < 65536) :
    Checksum.compile s = 65535 - s := by
  rw [Checksum.compile]
  have h0 : s / 65536 = 0 := Nat.div_eq_of_lt h
  simp [h0, Nat.mod_eq_of_lt h]


theorem Checksum.compile_step {s : Nat} (h : 65536 ≤ s) :
    Checksum.compile s = Checksum.compile (s % 65536 + s / 65536) := by
  rw [Checksum.compile]
  rw [if_pos (by omega : 0 < s / 65536)]

theorem byteAt_lt {l : List Nat} (hb : ∀ b ∈ l, b < 256) {i : Nat}
    (h : i < l.length) : byteAt l i < 256 := by
  have := List.getD_eq_getElem l 0 h
  rw [byteAt, this]
  exact hb _ (List.getElem_mem h)

theorem exists_len4 : ∀ (l : List Nat), l.length = 4 →
    ∃ a b c d, l = [a, b, c, d]
  | [a, b, c, d], _ => ⟨a, b, c, d, rfl⟩

theorem exists_len6 : ∀ (l : List Nat), l.length = 6 →
    ∃ a b c d e f, l = [a, b, c, d, e, f]
  | [a, b, c, d, e, f], _ => ⟨a, b, c, d, e, f, rfl⟩

theorem Checksum.sum_join : ∀ (rs : List (List Nat)),
    (∀ l ∈ rs.dropLast, l.length % 2 = 0) →
    Checksum.sum rs.flatten = (rs.map Checksum.sum).sum
  | [], _ => by simp [Checksum.sum]
  | [_], _ => by simp
  | r :: r2 :: rest, h => by
    have hr : r.length % 2 = 0 := by
      refine h r ?_
      simp [List.dropLast]
    have ih := Checksum.sum_join (r2 :: rest) (fun l hl => by
      refine h l ?_
      simp only [List.dropLast]
      exact List.mem_cons_of_mem r hl)
    rw [List.flatten_cons, Checksum.sum_append_even r _ hr, ih]
    simp [List.sum_cons]

/-- C8 (corrected): with regions of arbitrary length the composability
equation fails; two adjacent one-byte regions are summed as a single
16-bit word in the concatenation but as two low bytes when summed
separately. -/
theorem checksum_concat_odd_counterexample :
    Checksum.compile (Checksum.sum ([[1], [1]] : List (List Nat)).flatten) ≠
      Checksum.compile ((([[1], [1]] : List (List Nat)).map Checksum.sum).sum) := by
  have h1 : (([[1], [1]] : List (List Nat)).flatten) = [1, 1] := rfl
  have h2 : Checksum.sum [1, 1] = 257 := rfl
  have h3 : ((([[1], [1]] : List (List Nat)).map Checksum.sum).sum) = 2 := rfl
  rw [h1, h2, h3, Checksum.compile_of_lt (by norm_num),
    Checksum.compile_of_lt (by norm_num)]
  norm_num

/-- C8 (amended): summing each region independently and adding the
partial sums before one final `compile` agrees with the checksum of the
concatenated region, provided every region except possibly the last has
even length (as holds for every caller in the library). -/
theorem checksum_regions_compose (rs : List (List Nat))
    (h : ∀ l ∈ rs.dropLast, l.length % 2 = 0) :
    Checksum.compile (Checksum.sum rs.flatten) =
      Checksum.compile ((rs.map Checksum.sum).sum) := by
  rw [Checksum.sum_join rs h]

theorem checksum_regions_compose_witness :
    (∀ l ∈ ([[1, 2], [3]] : List (List Nat)).dropLast, l.length % 2 = 0) ∧
      Checksum.compile (Checksum.sum ([[1, 2], [3]] : List (List Nat)).flatten) =
        Checksum.compile ((([[1, 2], [3]] : List (List Nat)).map Checksum.sum).sum) :=
  ⟨by decide, checksum_regions_compose [[1, 2], [3]] (by decide)⟩

/-- C9 (corrected): `compile` is not idempotent on fully folded inputs;
`0` is fully folded, yet `compile (compile 0) = 0` while
`compile 0 = 0xFFFF`. -/
theorem checksum_compile_not_idempotent :
    (0 : Nat) < 65536 ∧
      Checksum.compile (Checksum.compile 0) ≠ Checksum.compile 0 := by
  refine ⟨by norm_num, ?_⟩
  have h1 : Checksum.compile 0 = 65535 := by
    rw [Checksum.compile_of_lt (by norm_num)]
  rw [h1, Checksum.compile_of_lt (by norm_num)]
  norm_num

/-- C9 (amended): for an accumulator with no carry bits above bit 16,
`compile` equals a single fold pass followed by the ones-complement, and
`compile` is an involution on such inputs:
`compile (compile s) = s`. -/
theorem checksum_compile_fold (s : Nat) (h : s < 65536) :
    Checksum.compile s = 65535 - (s % 65536 + s / 65536) ∧
      Checksum.compile (Checksum.compile s) = s := by
  have h1 := Checksum.compile_of_lt h
  refine ⟨by rw [h1]; omega, ?_⟩
  rw [h1, Checksum.compile_of_lt (by omega)]
  omega

theorem checksum_compile_fold_witness :
    (5 : Nat) < 65536 ∧
      (Checksum.compile 5 = 65535 - (5 % 65536 + 5 / 65536) ∧
        Checksum.compile (Checksum.compile 5) = 5) :=
  ⟨by norm_num, checksum_compile_fold 5 (by norm_num)⟩

/-! ## Claim theorems: decoding -/

/-- C1: `Ipv4::from_bytes` returns a result exactly when the buffer holds
the fixed header, the derived header length `(ver_hlen & 0xF) * 4` lies
between 20 and the buffer length, the total-length field fits the buffer
and is at least the header length; on success the options are
`bytes[20..header_len]` and the data is `bytes[header_len..total_len]`. -/
theorem ipv4_from_bytes_spec (bytes : List Nat) (hb : ∀ b ∈ bytes, b < 256) :
    ((Ipv4.from_bytes bytes).isSome ↔
      20 ≤ bytes.length ∧
      20 ≤ (byteAt bytes 0 &&& 0xF) * 4 ∧
      (byteAt bytes 0 &&& 0xF) * 4 ≤ bytes.length ∧
      256 * byteAt bytes 2 + byteAt bytes 3 ≤ bytes.length ∧
      (byteAt bytes 0 &&& 0xF) * 4 ≤ 256 * byteAt bytes 2 + byteAt bytes 3) ∧
    (∀ f, Ipv4.from_bytes bytes = some f →
      f.options = listSlice bytes 20 ((byteAt bytes 0 &&& 0xF) * 4) ∧
      f.data = listSlice bytes ((byteAt bytes 0 &&& 0xF) * 4)
        (256 * byteAt bytes 2 + byteAt bytes 3)) := by
  by_cases h20 : 20 ≤ bytes.length
  · have hb2 : byteAt bytes 2 < 256 := byteAt_lt hb (by omega)
    have hb3 : byteAt bytes 3 < 256 := byteAt_lt hb (by omega)
    have hget : (n16.get ⟨le16 (byteAt bytes 2) (byteAt bytes 3)⟩) =
        256 * byteAt bytes 2 + byteAt bytes 3 := by
      simp only [n16.get, swap16, le16]
      omega
    have hsl : (byteAt bytes 0 &&& 0xF) <<< 2 = (byteAt bytes 0 &&& 0xF) * 4 := by
      rw [Nat.shiftLeft_eq]
    simp only [Ipv4.from_bytes, if_pos h20, hget, hsl]
    split_ifs with hc
    · simp only [Option.isSome_some, true_iff, Option.some.injEq]
      refine ⟨⟨h20, hc.1, hc.2.1, hc.2.2.1, hc.2.2.2⟩, ?_⟩
      rintro f rfl
      exact ⟨rfl, rfl⟩
    · simp only [Option.isSome_none, Bool.false_eq_true, false_iff]
      constructor
      · intro hcontra
        exact hc ⟨hcontra.2.1, hcontra.2.2.1, hcontra.2.2.2.1, hcontra.2.2.2.2⟩
      · intro f hf
        exact absurd hf (by simp)
  · simp only [Ipv4.from_bytes, if_neg h20]
    constructor
    · simp only [Option.isSome_none, Bool.false_eq_true, false_iff]
      intro hcontra
      exact h20 hcontra.1
    · intro f hf
      exact absurd hf (by simp)

theorem ipv4_from_bytes_spec_witness :
    (∀ b ∈ ([0x45, 0, 0, 20] ++ List.replicate 16 0 : List Nat), b < 256) ∧
    (Ipv4.from_bytes ([0x45, 0, 0, 20] ++ List.replicate 16 0)).isSome := by
  refine ⟨by decide, ?_⟩
  exact (ipv4_from_bytes_spec ([0x45, 0, 0, 20] ++ List.replicate 16 0)
    (by decide)).1.mpr (by decide)

/-- C6: `Tcp::from_bytes` on a buffer of at least 20 bytes derives
`header_len = (flags & 0xF000) >> 10` from the host-order flags word,
fails unless `20 ≤ header_len ≤ bytes.len()`, and on success yields
`options = bytes[20..header_len]` and `data = bytes[header_len..]`;
shorter buffers decode to nothing. -/
theorem tcp_from_bytes_spec (bytes : List Nat) (hb : ∀ b ∈ bytes, b < 256) :
    (20 ≤ bytes.length →
      (((Tcp.from_bytes bytes).isSome ↔
        20 ≤ ((256 * byteAt bytes 12 + byteAt bytes 13) &&& 0xF000) >>> 10 ∧
        ((256 * byteAt bytes 12 + byteAt bytes 13) &&& 0xF000) >>> 10 ≤
          bytes.length) ∧
       ∀ t, Tcp.from_bytes bytes = some t →
         t.options = listSlice bytes 20
           (((256 * byteAt bytes 12 + byteAt bytes 13) &&& 0xF000) >>> 10) ∧
         t.data = listSlice bytes
           (((256 * byteAt bytes 12 + byteAt bytes 13) &&& 0xF000) >>> 10)
           bytes.length)) ∧
    (bytes.length < 20 → Tcp.from_bytes bytes = none) := by
  constructor
  · intro h20
    have hb12 : byteAt bytes 12 < 256 := byteAt_lt hb (by omega)
    have hb13 : byteAt bytes 13 < 256 := byteAt_lt hb (by omega)
    have hget : (n16.get ⟨le16 (byteAt bytes 12) (byteAt bytes 13)⟩) =
        256 * byteAt bytes 12 + byteAt bytes 13 := by
      simp only [n16.get, swap16, le16]
      omega
    simp only [Tcp.from_bytes, if_pos h20, hget]
    split_ifs with hc
    · simp only [Option.isSome_some, true_iff, Option.some.injEq]
      refine ⟨⟨hc.1, hc.2⟩, ?_⟩
      rintro t rfl
      exact ⟨rfl, rfl⟩
    · simp only [Option.isSome_none, Bool.false_eq_true, false_iff]
      constructor
      · intro hcontra
        exact hc ⟨hcontra.1, hcontra.2⟩
      · intro t ht
        exact absurd ht (by simp)
  · intro h20
    simp only [Tcp.from_bytes, if_neg (by omega : ¬ 20 ≤ bytes.length)]

theorem tcp_from_bytes_spec_witness :
    (∀ b ∈ (List.replicate 12 0 ++ [0x50, 0] ++ List.replicate 6 0 : List Nat),
        b < 256) ∧
    (Tcp.from_bytes
      (List.replicate 12 0 ++ [0x50, 0] ++ List.replicate 6 0)).isSome := by
  refine ⟨by decide, ?_⟩
  exact ((tcp_from_bytes_spec
    (List.replicate 12 0 ++ [0x50, 0] ++ List.replicate 6 0)
    (by decide)).1 (by decide)).1.mpr (by decide)

/-- C7: every frame type rejects a buffer shorter than its fixed header
(28, 14, 20, 20, 8 bytes), and IPv4 and UDP reject a buffer whose
embedded length field exceeds the buffer length; every decode failure is
the absent option value (the embedding is total, so no other outcome
exists). -/
theorem from_bytes_bounds :
    (∀ bytes : List Nat, bytes.length < 28 → Arp.from_bytes bytes = none) ∧
    (∀ bytes : List Nat, bytes.length < 14 → EthernetII.from_bytes bytes = none) ∧
    (∀ bytes : List Nat, bytes.length < 20 → Ipv4.from_bytes bytes = none) ∧
    (∀ bytes : List Nat, bytes.length < 20 → Tcp.from_bytes bytes = none) ∧
    (∀ bytes : List Nat, bytes.length < 8 → Udp.from_bytes bytes = none) ∧
    (∀ bytes : List Nat, (∀ b ∈ bytes, b < 256) →
      bytes.length < 256 * byteAt bytes 2 + byteAt bytes 3 →
      Ipv4.from_bytes bytes = none) ∧
    (∀ bytes : List Nat, (∀ b ∈ bytes, b < 256) →
      bytes.length < 256 * byteAt bytes 4 + byteAt bytes 5 →
      Udp.from_bytes bytes = none) := by
  refine ⟨?_, ?_, ?_, ?_, ?_, ?_, ?_⟩
  · intro bytes h
    simp only [Arp.from_bytes, if_neg (by omega : ¬ 28 ≤ bytes.length)]
  · intro bytes h
    simp only [EthernetII.from_bytes, if_neg (by omega : ¬ 14 ≤ bytes.length)]
  · intro bytes h
    simp only [Ipv4.from_bytes, if_neg (by omega : ¬ 20 ≤ bytes.length)]
  · intro bytes h
    simp only [Tcp.from_bytes, if_neg (by omega : ¬ 20 ≤ bytes.length)]
  · intro bytes h
    simp only [Udp.from_bytes, if_neg (by omega : ¬ 8 ≤ bytes.length)]
  · intro bytes hb h
    by_cases h20 : 20 ≤ bytes.length
    · have hb2 : byteAt bytes 2 < 256 := byteAt_lt hb (by omega)
      have hb3 : byteAt bytes 3 < 256 := byteAt_lt hb (by omega)
      have hget : (n16.get ⟨le16 (byteAt bytes 2) (byteAt bytes 3)⟩) =
          256 * byteAt bytes 2 + byteAt bytes 3 := by
        simp only [n16.get, swap16, le16]
        omega
      simp only [Ipv4.from_bytes, if_pos h20, hget]
      rw [if_neg]
      intro hcontra
      omega
    · simp only [Ipv4.from_bytes, if_neg h20]
  · intro bytes hb h
    by_cases h8 : 8 ≤ bytes.length
    · have hb4 : byteAt bytes 4 < 256 := byteAt_lt hb (by omega)
      have hb5 : byteAt bytes 5 < 256 := byteAt_lt hb (by omega)
      have hget : (n16.get ⟨le16 (byteAt bytes 4) (byteAt bytes 5)⟩) =
          256 * byteAt bytes 4 + byteAt bytes 5 := by
        simp only [n16.get, swap16, le16]
        omega
      simp only [Udp.from_bytes, if_pos h8, hget]
      rw [if_neg]
      intro hcontra
      omega
    · simp only [Udp.from_bytes, if_neg h8]

theorem from_bytes_bounds_witness :
    Arp.from_bytes [] = none ∧ EthernetII.from_bytes [1, 2, 3] = none ∧
    Udp.from_bytes [0, 0, 0, 0, 255, 255, 0, 0] = none :=
  ⟨from_bytes_bounds.1 [] (by decide),
   from_bytes_bounds.2.1 [1, 2, 3] (by decide),
   from_bytes_bounds.2.2.2.2.2.2 [0, 0, 0, 0, 255, 255, 0, 0] (by decide)
     (by decide)⟩

/-! ## Claim theorems: checksums -/

/-- C5: after `Ipv4::checksum`, the checksum field holds
`compile(sum(fixed header with the checksum field zeroed))`; options and
data are not summed, and every other field, the options and the data are
unchanged. -/
theorem ipv4_checksum_spec (f : Ipv4) :
    (Ipv4.checksum f).header.checksum.data =
      Checksum.compile (Checksum.sum
        (Ipv4Header.bytes { f.header with checksum := ⟨0⟩ })) ∧
    (Ipv4.checksum f).header.ver_hlen = f.header.ver_hlen ∧
    (Ipv4.checksum f).header.services = f.header.services ∧
    (Ipv4.checksum f).header.len = f.header.len ∧
    (Ipv4.checksum f).header.id = f.header.id ∧
    (Ipv4.checksum f).header.flags_fragment = f.header.flags_fragment ∧
    (Ipv4.checksum f).header.ttl = f.header.ttl ∧
    (Ipv4.checksum f).header.proto = f.header.proto ∧
    (Ipv4.checksum f).header.src = f.header.src ∧
    (Ipv4.checksum f).header.dst = f.header.dst ∧
    (Ipv4.checksum f).options = f.options ∧
    (Ipv4.checksum f).data = f.data :=
  ⟨rfl, rfl, rfl, rfl, rfl, rfl, rfl, rfl, rfl, rfl, rfl, rfl⟩

/-- C2: `Udp::is_valid` agrees with the specification wording: zero
stored checksum is unconditionally valid, otherwise the ones-complement
checksum of pseudo-header, zero-checksum header and data (with a folded
result of 0 replaced by 0xFFFF) is compared with the stored field. -/
theorem udp_is_valid_matches_spec (u : Udp) (src_addr dst_addr : Ipv4Addr)
    (hsrc : src_addr.bytes.length = 4) (hdst : dst_addr.bytes.length = 4) :
    u.is_valid src_addr dst_addr = u.is_valid_spec src_addr dst_addr := by
  obtain ⟨s0, s1, s2, s3, hs⟩ := exists_len4 _ hsrc
  obtain ⟨d0, d1, d2, d3, hd⟩ := exists_len4 _ hdst
  unfold Udp.is_valid Udp.is_valid_spec
  by_cases h0 : u.header.checksum.data = 0
  · simp [h0]
  · simp only [if_neg h0, hs, hd, UdpHeader.bytes, n16.bytes, Checksum.bytes,
      bytes16, List.cons_append, List.nil_append, List.append_nil,
      Checksum.sum, le16]
    ring_nf

theorem udp_is_valid_matches_spec_witness :
    (Ipv4Addr.LOOPBACK.bytes.length = 4 ∧ Ipv4Addr.LOOPBACK.bytes.length = 4) ∧
    Udp.is_valid
      { header := { src := n16.new 54110, dst := n16.new 25000,
                    len := n16.new 10, checksum := ⟨0xc69b⟩ },
        data := [49, 10] } Ipv4Addr.LOOPBACK Ipv4Addr.LOOPBACK =
    Udp.is_valid_spec
      { header := { src := n16.new 54110, dst := n16.new 25000,
                    len := n16.new 10, checksum := ⟨0xc69b⟩ },
        data := [49, 10] } Ipv4Addr.LOOPBACK Ipv4Addr.LOOPBACK :=
  ⟨⟨by decide, by decide⟩,
   udp_is_valid_matches_spec _ Ipv4Addr.LOOPBACK Ipv4Addr.LOOPBACK
     (by decide) (by decide)⟩

/-- C4: the four UDP checksum test vectors (loopback addresses) validate
as true: ports 54110 to 25000 with length 10 and data "1\n" against
0xc69b, the same ports with data "b\n" against 0xc66a, length 13 and
data "aabb\n" against 0x06ff, and ports 0 to 1234 with length 13 and
data "fubar" against 0x28c2. -/
theorem udp_checksum_vectors :
    Udp.is_valid
      { header := { src := n16.new 54110, dst := n16.new 25000,
                    len := n16.new 10, checksum := ⟨0xc69b⟩ },
        data := [49, 10] } Ipv4Addr.LOOPBACK Ipv4Addr.LOOPBACK = true ∧
    Udp.is_valid
      { header := { src := n16.new 54110, dst := n16.new 25000,
                    len := n16.new 10, checksum := ⟨0xc66a⟩ },
        data := [98, 10] } Ipv4Addr.LOOPBACK Ipv4Addr.LOOPBACK = true ∧
    Udp.is_valid
      { header := { src := n16.new 54110, dst := n16.new 25000,
                    len := n16.new 13, checksum := ⟨0x06ff⟩ },
        data := [97, 97, 98, 98, 10] } Ipv4Addr.LOOPBACK Ipv4Addr.LOOPBACK
      = true ∧
    Udp.is_valid
      { header := { src := n16.new 0, dst := n16.new 1234,
                    len := n16.new 13, checksum := ⟨0x28c2⟩ },
        data := [102, 117, 98, 97, 114] } Ipv4Addr.LOOPBACK Ipv4Addr.LOOPBACK
      = true := by
  have hc1 : Checksum.compile 80227 = 50843 := by
    rw [Checksum.compile_step (by norm_num), Checksum.compile_of_lt (by norm_num)]
  have hc2 : Checksum.compile 80276 = 50794 := by
    rw [Checksum.compile_step (by norm_num), Checksum.compile_of_lt (by norm_num)]
  have hc3 : Checksum.compile 129279 = 1791 := by
    rw [Checksum.compile_step (by norm_num), Checksum.compile_of_lt (by norm_num)]
  have hc4 : Checksum.compile 120636 = 10434 := by
    rw [Checksum.compile_step (by norm_num), Checksum.compile_of_lt (by norm_num)]
  refine ⟨?_, ?_, ?_, ?_⟩ <;>
    · unfold Udp.is_valid
      norm_num [Ipv4Addr.LOOPBACK, n16.new, swap16, UdpHeader.bytes, n16.bytes,
        Checksum.bytes, bytes16, Checksum.sum, le16, hc1, hc2, hc3, hc4]

/-! ## Claim theorems: round trips -/

theorem udp_roundtrip (u : Udp) (h : UdpWF u) :
    Udp.from_bytes u.to_bytes = some u := by
  obtain ⟨⟨⟨sv⟩, ⟨dv⟩, ⟨lv⟩, ⟨cv⟩⟩, data⟩ := u
  obtain ⟨h1, h2, h3, h4, h5⟩ := h
  dsimp only at h1 h2 h3 h4 h5
  have hb : Udp.to_bytes ⟨⟨⟨sv⟩, ⟨dv⟩, ⟨lv⟩, ⟨cv⟩⟩, data⟩ =
      sv % 256 :: sv / 256 % 256 :: dv % 256 :: dv / 256 % 256 ::
      lv % 256 :: lv / 256 % 256 :: cv % 256 :: cv / 256 % 256 :: data := by
    simp [Udp.to_bytes, UdpHeader.bytes, n16.bytes, Checksum.bytes, bytes16]
  rw [hb]
  have e1 : le16 (sv % 256) (sv / 256 % 256) = sv := by
    simp only [le16]; omega
  have e2 : le16 (dv % 256) (dv / 256 % 256) = dv := by
    simp only [le16]; omega
  have e3 : le16 (lv % 256) (lv / 256 % 256) = lv := by
    simp only [le16]; omega
  have e4 : le16 (cv % 256) (cv / 256 % 256) = cv := by
    simp only [le16]; omega
  simp only [Udp.from_bytes, byteAt, List.getD_cons_zero, List.getD_cons_succ,
    List.length_cons, e1, e2, e3, e4]
  rw [if_pos (by omega), if_pos (by rw [h5]; constructor <;> omega)]
  have hslice : listSlice (sv % 256 :: sv / 256 % 256 :: dv % 256 ::
      dv / 256 % 256 :: lv % 256 :: lv / 256 % 256 :: cv % 256 ::
      cv / 256 % 256 :: data) 8 (n16.get ⟨lv⟩) = data := by
    rw [h5]
    simp [listSlice, List.drop_succ_cons, Nat.add_sub_cancel_left]
  rw [hslice]

theorem ipv4_roundtrip (f : Ipv4) (h : Ipv4WF f) :
    Ipv4.from_bytes f.to_bytes = some f := by
  obtain ⟨⟨vh, serv, ⟨lv⟩, ⟨iv⟩, ⟨fv⟩, ttl, proto, ⟨cv⟩, ⟨sb⟩, ⟨db⟩⟩,
    options, data⟩ := f
  obtain ⟨h1, h2, h3, h4, h5, h6, h7, h8⟩ := h
  dsimp only at h1 h2 h3 h4 h5 h6 h7 h8
  obtain ⟨s0, s1, s2, s3, hs⟩ := exists_len4 _ h5
  obtain ⟨d0, d1, d2, d3, hd⟩ := exists_len4 _ h6
  subst hs hd
  have hb : Ipv4.to_bytes ⟨⟨vh, serv, ⟨lv⟩, ⟨iv⟩, ⟨fv⟩, ttl, proto, ⟨cv⟩,
      ⟨[s0, s1, s2, s3]⟩, ⟨[d0, d1, d2, d3]⟩⟩, options, data⟩ =
      vh :: serv :: lv % 256 :: lv / 256 % 256 :: iv % 256 :: iv / 256 % 256 ::
      fv % 256 :: fv / 256 % 256 :: ttl :: proto :: cv % 256 :: cv / 256 % 256 ::
      s0 :: s1 :: s2 :: s3 :: d0 :: d1 :: d2 :: d3 :: (options ++ data) := by
    simp [Ipv4.to_bytes, Ipv4Header.bytes, n16.bytes, Checksum.bytes, bytes16]
  rw [hb]
  have e1 : le16 (lv % 256) (lv / 256 % 256) = lv := by
    simp only [le16]; omega
  have e2 : le16 (iv % 256) (iv / 256 % 256) = iv := by
    simp only [le16]; omega
  have e3 : le16 (fv % 256) (fv / 256 % 256) = fv := by
    simp only [le16]; omega
  have e4 : le16 (cv % 256) (cv / 256 % 256) = cv := by
    simp only [le16]; omega
  have hdrop : List.drop 20 (vh :: serv :: lv % 256 :: lv / 256 % 256 ::
      iv % 256 :: iv / 256 % 256 :: fv % 256 :: fv / 256 % 256 :: ttl ::
      proto :: cv % 256 :: cv / 256 % 256 :: s0 :: s1 :: s2 :: s3 :: d0 ::
      d1 :: d2 :: d3 :: (options ++ data)) = options ++ data := by
    simp [List.drop_succ_cons]
  simp only [Ipv4.from_bytes, byteAt, List.getD_cons_zero, List.getD_cons_succ,
    List.length_cons, List.length_append, e1, e2, e3, e4]
  rw [h7, h8]
  rw [if_pos (by omega), if_pos (by omega)]
  have hslice1 : listSlice (vh :: serv :: lv % 256 :: lv / 256 % 256 ::
      iv % 256 :: iv / 256 % 256 :: fv % 256 :: fv / 256 % 256 :: ttl ::
      proto :: cv % 256 :: cv / 256 % 256 :: s0 :: s1 :: s2 :: s3 :: d0 ::
      d1 :: d2 :: d3 :: (options ++ data)) 20 (20 + options.length) =
      options := by
    simp only [listSlice]
    rw [show 20 + options.length - 20 = options.length from by omega, hdrop,
      List.take_left]
  have hslice2 : listSlice (vh :: serv :: lv % 256 :: lv / 256 % 256 ::
      iv % 256 :: iv / 256 % 256 :: fv % 256 :: fv / 256 % 256 :: ttl ::
      proto :: cv % 256 :: cv / 256 % 256 :: s0 :: s1 :: s2 :: s3 :: d0 ::
      d1 :: d2 :: d3 :: (options ++ data)) (20 + options.length)
      (20 + options.length + data.length) = data := by
    simp only [listSlice]
    rw [show 20 + options.length + data.length - (20 + options.length) =
        data.length from by omega,
      ← List.drop_drop, hdrop, List.drop_left, List.take_length]
  rw [hslice1, hslice2]

theorem tcp_roundtrip (t : Tcp) (h : TcpWF t) :
    Tcp.from_bytes t.to_bytes = some t := by
  obtain ⟨⟨⟨srcv⟩, ⟨dstv⟩, ⟨seqv⟩, ⟨ackv⟩, ⟨flv⟩, ⟨wv⟩, ⟨cv⟩, ⟨uv⟩⟩,
    options, data⟩ := t
  obtain ⟨h1, h2, h3, h4, h5, h6, h7, h8, h9⟩ := h
  dsimp only at h1 h2 h3 h4 h5 h6 h7 h8 h9
  have hb : Tcp.to_bytes ⟨⟨⟨srcv⟩, ⟨dstv⟩, ⟨seqv⟩, ⟨ackv⟩, ⟨flv⟩, ⟨wv⟩, ⟨cv⟩,
      ⟨uv⟩⟩, options, data⟩ =
      srcv % 256 :: srcv / 256 % 256 :: dstv % 256 :: dstv / 256 % 256 ::
      seqv % 256 :: seqv / 256 % 256 :: seqv / 65536 % 256 ::
      seqv / 16777216 % 256 :: ackv % 256 :: ackv / 256 % 256 ::
      ackv / 65536 % 256 :: ackv / 16777216 % 256 :: flv % 256 ::
      flv / 256 % 256 :: wv % 256 :: wv / 256 % 256 :: cv % 256 ::
      cv / 256 % 256 :: uv % 256 :: uv / 256 % 256 :: (options ++ data) := by
    simp [Tcp.to_bytes, TcpHeader.bytes, n16.bytes, n32.bytes, Checksum.bytes,
      bytes16, bytes32]
  rw [hb]
  have e1 : le16 (srcv % 256) (srcv / 256 % 256) = srcv := by
    simp only [le16]; omega
  have e2 : le16 (dstv % 256) (dstv / 256 % 256) = dstv := by
    simp only [le16]; omega
  have e3 : le16 (seqv % 256) (seqv / 256 % 256) +
      65536 * le16 (seqv / 65536 % 256) (seqv / 16777216 % 256) = seqv := by
    simp only [le16]; omega
  have e4 : le16 (ackv % 256) (ackv / 256 % 256) +
      65536 * le16 (ackv / 65536 % 256) (ackv / 16777216 % 256) = ackv := by
    simp only [le16]; omega
  have e5 : le16 (flv % 256) (flv / 256 % 256) = flv := by
    simp only [le16]; omega
  have e6 : le16 (wv % 256) (wv / 256 % 256) = wv := by
    simp only [le16]; omega
  have e7 : le16 (cv % 256) (cv / 256 % 256) = cv := by
    simp only [le16]; omega
  have e8 : le16 (uv % 256) (uv / 256 % 256) = uv := by
    simp only [le16]; omega
  have hdrop : List.drop 20 (srcv % 256 :: srcv / 256 % 256 :: dstv % 256 ::
      dstv / 256 % 256 :: seqv % 256 :: seqv / 256 % 256 ::
      seqv / 65536 % 256 :: seqv / 16777216 % 256 :: ackv % 256 ::
      ackv / 256 % 256 :: ackv / 65536 % 256 :: ackv / 16777216 % 256 ::
      flv % 256 :: flv / 256 % 256 :: wv % 256 :: wv / 256 % 256 :: cv % 256 ::
      cv / 256 % 256 :: uv % 256 :: uv / 256 % 256 :: (options ++ data)) =
      options ++ data := by
    simp [List.drop_succ_cons]
  simp only [Tcp.from_bytes, byteAt, List.getD_cons_zero, List.getD_cons_succ,
    List.length_cons, List.length_append, e1, e2, e3, e4, e5, e6, e7, e8]
  rw [h9]
  rw [if_pos (by omega), if_pos (by omega)]
  have hslice1 : listSlice (srcv % 256 :: srcv / 256 % 256 :: dstv % 256 ::
      dstv / 256 % 256 :: seqv % 256 :: seqv / 256 % 256 ::
      seqv / 65536 % 256 :: seqv / 16777216 % 256 :: ackv % 256 ::
      ackv / 256 % 256 :: ackv / 65536 % 256 :: ackv / 16777216 % 256 ::
      flv % 256 :: flv / 256 % 256 :: wv % 256 :: wv / 256 % 256 :: cv % 256 ::
      cv / 256 % 256 :: uv % 256 :: uv / 256 % 256 :: (options ++ data)) 20
      (20 + options.length) = options := by
    simp only [listSlice]
    rw [show 20 + options.length - 20 = options.length from by omega, hdrop,
      List.take_left]
  have hslice2 : listSlice (srcv % 256 :: srcv / 256 % 256 :: dstv % 256 ::
      dstv / 256 % 256 :: seqv % 256 :: seqv / 256 % 256 ::
      seqv / 65536 % 256 :: seqv / 16777216 % 256 :: ackv % 256 ::
      ackv / 256 % 256 :: ackv / 65536 % 256 :: ackv / 16777216 % 256 ::
      flv % 256 :: flv / 256 % 256 :: wv % 256 :: wv / 256 % 256 :: cv % 256 ::
      cv / 256 % 256 :: uv % 256 :: uv / 256 % 256 :: (options ++ data))
      (20 + options.length) (options.length + data.length + 20) = data := by
    simp only [listSlice]
    rw [show options.length + data.length + 20 - (20 + options.length) =
        data.length from by omega,
      ← List.drop_drop, hdrop, List.drop_left, List.take_length]
  rw [hslice1, hslice2]

theorem arp_roundtrip (a : Arp) (h : ArpWF a) :
    Arp.from_bytes a.to_bytes = some a := by
  obtain ⟨⟨⟨htv⟩, ⟨ptv⟩, hl, pl, ⟨opv⟩, ⟨smb⟩, ⟨sib⟩, ⟨dmb⟩, ⟨dib⟩⟩, data⟩ := a
  obtain ⟨h1, h2, h3, h4, h5, h6, h7⟩ := h
  dsimp only at h1 h2 h3 h4 h5 h6 h7
  obtain ⟨m0, m1, m2, m3, m4, m5, hsm⟩ := exists_len6 _ h4
  obtain ⟨i0, i1, i2, i3, hsi⟩ := exists_len4 _ h5
  obtain ⟨n0, n1, n2, n3, n4, n5, hdm⟩ := exists_len6 _ h6
  obtain ⟨j0, j1, j2, j3, hdi⟩ := exists_len4 _ h7
  subst hsm hsi hdm hdi
  have hb : Arp.to_bytes ⟨⟨⟨htv⟩, ⟨ptv⟩, hl, pl, ⟨opv⟩, ⟨[m0, m1, m2, m3, m4, m5]⟩,
      ⟨[i0, i1, i2, i3]⟩, ⟨[n0, n1, n2, n3, n4, n5]⟩, ⟨[j0, j1, j2, j3]⟩⟩,
      data⟩ =
      htv % 256 :: htv / 256 % 256 :: ptv % 256 :: ptv / 256 % 256 :: hl ::
      pl :: opv % 256 :: opv / 256 % 256 :: m0 :: m1 :: m2 :: m3 :: m4 :: m5 ::
      i0 :: i1 :: i2 :: i3 :: n0 :: n1 :: n2 :: n3 :: n4 :: n5 ::
      j0 :: j1 :: j2 :: j3 :: data := by
    simp [Arp.to_bytes, ArpHeader.bytes, n16.bytes, bytes16]
  rw [hb]
  have e1 : le16 (htv % 256) (htv / 256 % 256) = htv := by
    simp only [le16]; omega
  have e2 : le16 (ptv % 256) (ptv / 256 % 256) = ptv := by
    simp only [le16]; omega
  have e3 : le16 (opv % 256) (opv / 256 % 256) = opv := by
    simp only [le16]; omega
  simp only [Arp.from_bytes, byteAt, List.getD_cons_zero, List.getD_cons_succ,
    List.length_cons, e1, e2, e3]
  rw [if_pos (by omega)]
  simp [List.drop_succ_cons]

theorem eth_roundtrip (e : EthernetII) (h : EthernetIIWF e) :
    EthernetII.from_bytes e.to_bytes = some e := by
  obtain ⟨⟨⟨dmb⟩, ⟨smb⟩, ⟨etv⟩⟩, data⟩ := e
  obtain ⟨h1, h2, h3⟩ := h
  dsimp only at h1 h2 h3
  obtain ⟨m0, m1, m2, m3, m4, m5, hdm⟩ := exists_len6 _ h1
  obtain ⟨n0, n1, n2, n3, n4, n5, hsm⟩ := exists_len6 _ h2
  subst hdm hsm
  have hb : EthernetII.to_bytes ⟨⟨⟨[m0, m1, m2, m3, m4, m5]⟩,
      ⟨[n0, n1, n2, n3, n4, n5]⟩, ⟨etv⟩⟩, data⟩ =
      m0 :: m1 :: m2 :: m3 :: m4 :: m5 :: n0 :: n1 :: n2 :: n3 :: n4 :: n5 ::
      etv % 256 :: etv / 256 % 256 :: data := by
    simp [EthernetII.to_bytes, EthernetIIHeader.bytes, n16.bytes, bytes16]
  rw [hb]
  have e1 : le16 (etv % 256) (etv / 256 % 256) = etv := by
    simp only [le16]; omega
  simp only [EthernetII.from_bytes, byteAt, List.getD_cons_zero,
    List.getD_cons_succ, List.length_cons, e1]
  rw [if_pos (by omega)]
  simp [List.drop_succ_cons]

/-- C3: for every frame type, a validly constructed frame whose
header-length/total-length fields are self-consistent with its options
and data decodes from its own serialization to an equal frame. -/
theorem frames_roundtrip (a : Arp) (e : EthernetII) (f : Ipv4) (t : Tcp)
    (u : Udp) (ha : ArpWF a) (he : EthernetIIWF e) (hf : Ipv4WF f)
    (ht : TcpWF t) (hu : UdpWF u) :
    Arp.from_bytes a.to_bytes = some a ∧
    EthernetII.from_bytes e.to_bytes = some e ∧
    Ipv4.from_bytes f.to_bytes = some f ∧
    Tcp.from_bytes t.to_bytes = some t ∧
    Udp.from_bytes u.to_bytes = some u :=
  ⟨arp_roundtrip a ha, eth_roundtrip e he, ipv4_roundtrip f hf,
   tcp_roundtrip t ht, udp_roundtrip u hu⟩

theorem frames_roundtrip_witness :
    (ArpWF ⟨⟨⟨1⟩, ⟨2⟩, 6, 4, ⟨3⟩, ⟨[1, 2, 3, 4, 5, 6]⟩, ⟨[9, 8, 7, 6]⟩,
        ⟨[11, 12, 13, 14, 15, 16]⟩, ⟨[4, 3, 2, 1]⟩⟩, [7, 7]⟩ ∧
     EthernetIIWF ⟨⟨⟨[1, 2, 3, 4, 5, 6]⟩, ⟨[6, 5, 4, 3, 2, 1]⟩, ⟨8⟩⟩, [9]⟩ ∧
     Ipv4WF ⟨⟨0x45, 0, ⟨5632⟩, ⟨0⟩, ⟨0⟩, 64, 17, ⟨0⟩, ⟨[1, 2, 3, 4]⟩,
        ⟨[5, 6, 7, 8]⟩⟩, [], [1, 2]⟩ ∧
     TcpWF ⟨⟨⟨1⟩, ⟨2⟩, ⟨3⟩, ⟨4⟩, ⟨80⟩, ⟨5⟩, ⟨6⟩, ⟨7⟩⟩, [], [9]⟩ ∧
     UdpWF ⟨⟨⟨1⟩, ⟨2⟩, ⟨2304⟩, ⟨3⟩⟩, [5]⟩) ∧
    (Arp.from_bytes (Arp.to_bytes ⟨⟨⟨1⟩, ⟨2⟩, 6, 4, ⟨3⟩, ⟨[1, 2, 3, 4, 5, 6]⟩,
        ⟨[9, 8, 7, 6]⟩, ⟨[11, 12, 13, 14, 15, 16]⟩, ⟨[4, 3, 2, 1]⟩⟩, [7, 7]⟩) =
      some ⟨⟨⟨1⟩, ⟨2⟩, 6, 4, ⟨3⟩, ⟨[1, 2, 3, 4, 5, 6]⟩, ⟨[9, 8, 7, 6]⟩,
        ⟨[11, 12, 13, 14, 15, 16]⟩, ⟨[4, 3, 2, 1]⟩⟩, [7, 7]⟩ ∧
     EthernetII.from_bytes (EthernetII.to_bytes ⟨⟨⟨[1, 2, 3, 4, 5, 6]⟩,
        ⟨[6, 5, 4, 3, 2, 1]⟩, ⟨8⟩⟩, [9]⟩) =
      some ⟨⟨⟨[1, 2, 3, 4, 5, 6]⟩, ⟨[6, 5, 4, 3, 2, 1]⟩, ⟨8⟩⟩, [9]⟩ ∧
     Ipv4.from_bytes (Ipv4.to_bytes ⟨⟨0x45, 0, ⟨5632⟩, ⟨0⟩, ⟨0⟩, 64, 17, ⟨0⟩,
        ⟨[1, 2, 3, 4]⟩, ⟨[5, 6, 7, 8]⟩⟩, [], [1, 2]⟩) =
      some ⟨⟨0x45, 0, ⟨5632⟩, ⟨0⟩, ⟨0⟩, 64, 17, ⟨0⟩, ⟨[1, 2, 3, 4]⟩,
        ⟨[5, 6, 7, 8]⟩⟩, [], [1, 2]⟩ ∧
     Tcp.from_bytes (Tcp.to_bytes ⟨⟨⟨1⟩, ⟨2⟩, ⟨3⟩, ⟨4⟩, ⟨80⟩, ⟨5⟩, ⟨6⟩, ⟨7⟩⟩,
        [], [9]⟩) = some ⟨⟨⟨1⟩, ⟨2⟩, ⟨3⟩, ⟨4⟩, ⟨80⟩, ⟨5⟩, ⟨6⟩, ⟨7⟩⟩, [], [9]⟩ ∧
     Udp.from_bytes (Udp.to_bytes ⟨⟨⟨1⟩, ⟨2⟩, ⟨2304⟩, ⟨3⟩⟩, [5]⟩) =
      some ⟨⟨⟨1⟩, ⟨2⟩, ⟨2304⟩, ⟨3⟩⟩, [5]⟩) :=
  ⟨⟨by unfold ArpWF; decide, by unfold EthernetIIWF; decide,
    by unfold Ipv4WF; decide, by unfold TcpWF; decide,
    by unfold UdpWF; decide⟩,
   frames_roundtrip _ _ _ _ _ (by unfold ArpWF; decide)
     (by unfold EthernetIIWF; decide) (by unfold Ipv4WF; decide)
     (by unfold TcpWF; decide) (by unfold UdpWF; decide)⟩

/-! ## Claim theorems: MAC address parsing -/

theorem splitChar_of_not_mem (d : Char) : ∀ l : List Char, d ∉ l →
    splitChar d l = [l]
  | [], _ => rfl
  | c :: rest, h => by
    have hc : ¬ c = d := fun hcd => h (hcd ▸ List.mem_cons_self c rest)
    have ih := splitChar_of_not_mem d rest
      (fun hm => h (List.mem_cons_of_mem c hm))
    simp [splitChar, hc, ih]

theorem splitChar_append (d : Char) : ∀ (xs ys : List Char), d ∉ xs →
    splitChar d (xs ++ d :: ys) = xs :: splitChar d ys
  | [], ys, _ => by simp [splitChar]
  | c :: xs, ys, h => by
    have hc : ¬ c = d := fun hcd => h (hcd ▸ List.mem_cons_self c xs)
    have ih := splitChar_append d xs ys (fun hm => h (List.mem_cons_of_mem c hm))
    simp [splitChar, hc, ih]

theorem parseHexDigits_dash : ∀ (l : List Char) (acc : Nat), '-' ∈ l →
    parseHexDigits l acc = none := by
  intro l
  induction l with
  | nil =>
    intro acc h
    exact absurd h (List.not_mem_nil _)
  | cons c t ih =>
    intro acc h
    rw [parseHexDigits]
    cases hc : hexDigitVal c with
    | none => rfl
    | some dgt =>
      have hct : '-' ∈ t := by
        rcases List.mem_cons.mp h with h1 | h1
        · exfalso
          rw [← h1, show hexDigitVal '-' = none from by decide] at hc
          exact Option.noConfusion hc
        · exact h1
      by_cases hle : acc * 16 + dgt ≤ 255
      · simp only [if_pos hle]
        exact ih _ hct
      · simp only [if_neg hle]

theorem fromStrRadix16_dash : ∀ l : List Char, '-' ∈ l →
    fromStrRadix16 l = none
  | [], h => absurd h (List.not_mem_nil _)
  | c :: t, h => by
    rw [fromStrRadix16]
    by_cases hc : c = '+'
    · subst hc
      have hct : '-' ∈ t := by
        rcases List.mem_cons.mp h with h1 | h1
        · exact absurd h1 (by decide)
        · exact h1
      have htne : ¬ t = [] := by
        intro he
        rw [he] at hct
        exact absurd hct (List.not_mem_nil _)
      simp only [if_pos rfl, if_neg htne]
      exact parseHexDigits_dash _ _ hct
    · simp only [if_neg hc]
      exact parseHexDigits_dash _ _ h

set_option maxRecDepth 8192 in
theorem hex2_facts : ∀ b : Nat, b < 256 →
    fromStrRadix16 (hex2 b) = some b ∧ ':' ∉ hex2 b ∧ '-' ∉ hex2 b := by
  decide

theorem mac_roundtrip (m : MacAddr) (hlen : m.bytes.length = 6)
    (hb : ∀ b ∈ m.bytes, b < 256) :
    MacAddr.from_str (MacAddr.to_string m) = m := by
  obtain ⟨mb⟩ := m
  dsimp only at hlen hb
  obtain ⟨b0, b1, b2, b3, b4, b5, hmb⟩ := exists_len6 _ hlen
  subst hmb
  obtain ⟨f0, c0, d0⟩ := hex2_facts b0 (hb _ (by simp))
  obtain ⟨f1, c1, d1⟩ := hex2_facts b1 (hb _ (by simp))
  obtain ⟨f2, c2, d2⟩ := hex2_facts b2 (hb _ (by simp))
  obtain ⟨f3, c3, d3⟩ := hex2_facts b3 (hb _ (by simp))
  obtain ⟨f4, c4, d4⟩ := hex2_facts b4 (hb _ (by simp))
  obtain ⟨f5, c5, d5⟩ := hex2_facts b5 (hb _ (by simp))
  have hts : MacAddr.to_string ⟨[b0, b1, b2, b3, b4, b5]⟩ =
      hex2 b0 ++ '-' :: (hex2 b1 ++ '-' :: (hex2 b2 ++ '-' :: (hex2 b3 ++
        '-' :: (hex2 b4 ++ '-' :: hex2 b5)))) := by
    simp [MacAddr.to_string, byteAt]
  have hnm : ':' ∉ hex2 b0 ++ '-' :: (hex2 b1 ++ '-' :: (hex2 b2 ++ '-' ::
      (hex2 b3 ++ '-' :: (hex2 b4 ++ '-' :: hex2 b5)))) := by
    simp only [List.mem_append, List.mem_cons]
    push_neg
    refine ⟨c0, by decide, c1, by decide, c2, by decide, c3, by decide,
      c4, by decide, c5⟩
  have hdashmem : '-' ∈ hex2 b0 ++ '-' :: (hex2 b1 ++ '-' :: (hex2 b2 ++
      '-' :: (hex2 b3 ++ '-' :: (hex2 b4 ++ '-' :: hex2 b5)))) :=
    List.mem_append_right _ (List.mem_cons_self _ _)
  have hcolon : MacAddr.try_parse_with_delimeter
      (MacAddr.to_string ⟨[b0, b1, b2, b3, b4, b5]⟩) ':' = none := by
    rw [MacAddr.try_parse_with_delimeter, hts, splitChar_of_not_mem _ _ hnm]
    rw [macParseLoop]
    simp only [List.length_nil, fromStrRadix16_dash _ hdashmem]
    rfl
  have hsplit : splitChar '-' (hex2 b0 ++ '-' :: (hex2 b1 ++ '-' ::
      (hex2 b2 ++ '-' :: (hex2 b3 ++ '-' :: (hex2 b4 ++ '-' :: hex2 b5))))) =
      [hex2 b0, hex2 b1, hex2 b2, hex2 b3, hex2 b4, hex2 b5] := by
    rw [splitChar_append _ _ _ d0, splitChar_append _ _ _ d1,
      splitChar_append _ _ _ d2, splitChar_append _ _ _ d3,
      splitChar_append _ _ _ d4, splitChar_of_not_mem _ _ d5]
  have hdash : MacAddr.try_parse_with_delimeter
      (MacAddr.to_string ⟨[b0, b1, b2, b3, b4, b5]⟩) '-' =
      some ⟨[b0, b1, b2, b3, b4, b5]⟩ := by
    rw [MacAddr.try_parse_with_delimeter, hts, hsplit]
    simp [macParseLoop, f0, f1, f2, f3, f4, f5]
  rw [MacAddr.from_str, hcolon, hdash]

/-- C10 (corrected): the claim maps every segment that is not a valid
1-2 digit hex pair to the all-zero address, but `u8::from_str_radix`
accepts any digit count whose value fits a `u8`: a three-digit segment
such as "001" parses successfully, so the address is not all-zero. -/
theorem mac_three_digit_counterexample :
    MacAddr.from_str ("001:23:45:67:89:ab".toList) =
      ⟨[0x01, 0x23, 0x45, 0x67, 0x89, 0xab]⟩ ∧
    MacAddr.from_str ("001:23:45:67:89:ab".toList) ≠ MacAddr.default := by
  decide

/-- C10 (amended): the colon, dash and short-first-segment spellings of
the same address parse equally; every input rejected by both the colon
and the dash parse attempt (wrong segment count, a segment that does not
parse as a hexadecimal u8, mixed delimiters, too many or too few octets)
parses to the all-zero address; and formatting then parsing any valid
address is the identity. -/
theorem mac_parse_properties :
    (MacAddr.from_str ("01:23:45:67:89:ab".toList) =
        MacAddr.from_str ("01-23-45-67-89-ab".toList) ∧
     MacAddr.from_str ("01-23-45-67-89-ab".toList) =
        MacAddr.from_str ("1:23:45:67:89:ab".toList)) ∧
    (∀ s : List Char, MacAddr.try_parse_with_delimeter s ':' = none →
      MacAddr.try_parse_with_delimeter s '-' = none →
      MacAddr.from_str s = MacAddr.default) ∧
    (MacAddr.from_str ("".toList) = MacAddr.default ∧
     MacAddr.from_str ("01:23:45:67:89".toList) = MacAddr.default ∧
     MacAddr.from_str ("01:23:45:67:89:ab:cd".toList) = MacAddr.default ∧
     MacAddr.from_str ("x1:23:45:67:89:ab".toList) = MacAddr.default ∧
     MacAddr.from_str ("01:23-45-67-89-ab".toList) = MacAddr.default ∧
     MacAddr.from_str ("01-23-45-67-89-ag".toList) = MacAddr.default ∧
     MacAddr.from_str ("01.23.45.67.89.ab".toList) = MacAddr.default ∧
     MacAddr.from_str ("01234-23-45-67-89-ab".toList) = MacAddr.default ∧
     MacAddr.from_str ("01--23-45-67-89-ab".toList) = MacAddr.default ∧
     MacAddr.from_str ("12".toList) = MacAddr.default) ∧
    (∀ m : MacAddr, m.bytes.length = 6 → (∀ b ∈ m.bytes, b < 256) →
      MacAddr.from_str (MacAddr.to_string m) = m) := by
  refine ⟨⟨by decide, by decide⟩, ?_,
    ⟨by decide, by decide, by decide, by decide, by decide, by decide,
     by decide, by decide, by decide, by decide⟩, mac_roundtrip⟩
  intro s h1 h2
  rw [MacAddr.from_str, h1, h2]

theorem mac_parse_properties_witness :
    MacAddr.from_str ("zz".toList) = MacAddr.default ∧
    MacAddr.from_str (MacAddr.to_string ⟨[0, 0x23, 0x45, 0x67, 0x89, 0xab]⟩) =
      ⟨[0, 0x23, 0x45, 0x67, 0x89, 0xab]⟩ :=
  ⟨mac_parse_properties.2.1 _ (by decide) (by decide),
   mac_parse_properties.2.2.2 _ (by decide) (by decide)⟩

end Netutils
